import Mathlib

/-!
Shallow embedding of the transaction encode/verify layer of the zksync
models crate (`core/models/src/node/tx.rs`).  External collaborators —
the Jubjub curve arithmetic, the decimal amount packers, the address
derivation and the SHA-256 digest — are parameters of the embedding
(structures `Engine` and `Ext` below), as the spec treats them as
outside collaborators.  Byte strings are `List UInt8`; Rust panics and
fallible encodings are modelled by `Option`.
-/

namespace ZkSyncTx

/-- Big-endian fixed-width encoding of a natural number into `w` bytes,
mirroring Rust's `to_be_bytes` on a `w`-byte unsigned integer: high
bytes first, the low byte last. -/
def natToBE : Nat → Nat → List UInt8
  | 0, _ => []
  | w + 1, n => natToBE w (n / 256) ++ [UInt8.ofNat (n % 256)]

theorem natToBE_length (w n : Nat) : (natToBE w n).length = w := by
  induction w generalizing n with
  | zero => rfl
  | succ w ih => simp [natToBE, ih]

theorem toNat_ofNat8 (n : Nat) : (UInt8.ofNat n).toNat = n % 256 := rfl

theorem ofNat_toNat8 (b : UInt8) : UInt8.ofNat b.toNat = b :=
  UInt8.ext (by rw [toNat_ofNat8]; exact Nat.mod_eq_of_lt b.toNat_lt)

theorem natToBE_inj (w : Nat) : ∀ {m n : Nat}, m < 256 ^ w → n < 256 ^ w →
    natToBE w m = natToBE w n → m = n := by
  induction w with
  | zero =>
    intro m n hm hn _
    simp [Nat.pow_zero] at hm hn
    omega
  | succ w ih =>
    intro m n hm hn h
    simp only [natToBE] at h
    obtain ⟨h1, h2⟩ := List.append_inj h (by simp [natToBE_length])
    have hm' : m / 256 < 256 ^ w := by
      rw [Nat.pow_succ] at hm
      exact Nat.div_lt_of_lt_mul (by omega)
    have hn' : n / 256 < 256 ^ w := by
      rw [Nat.pow_succ] at hn
      exact Nat.div_lt_of_lt_mul (by omega)
    have hdiv := ih hm' hn' h1
    have hmod := congrArg UInt8.toNat (List.head_eq_of_cons_eq h2)
    rw [toNat_ofNat8, toNat_ofNat8] at hmod
    omega

/-- Lowercase hex digit character for a nibble, as produced by the
`hex` crate's encoder. -/
def hexDigit (n : Nat) : Char :=
  if n < 10 then Char.ofNat (48 + n) else Char.ofNat (87 + n)

/-- `hex::encode`: every byte becomes two lowercase hex digits, high
nibble first. -/
def hexEncode (bs : List UInt8) : List Char :=
  bs.flatMap fun b => [hexDigit (b.toNat / 16), hexDigit (b.toNat % 16)]

/-- Value of one hex digit character (`hex::decode` accepts both
cases); `none` on a non-hex character. -/
def hexDigitVal (c : Char) : Option Nat :=
  if 48 ≤ c.toNat ∧ c.toNat ≤ 57 then some (c.toNat - 48)
  else if 97 ≤ c.toNat ∧ c.toNat ≤ 102 then some (c.toNat - 87)
  else if 65 ≤ c.toNat ∧ c.toNat ≤ 70 then some (c.toNat - 55)
  else none

/-- `hex::decode`: pairs of hex digits to bytes; fails on odd length or
a non-hex character. -/
def hexDecode : List Char → Option (List UInt8)
  | [] => some []
  | [_] => none
  | c₁ :: c₂ :: rest =>
    match hexDigitVal c₁, hexDigitVal c₂, hexDecode rest with
    | some h, some l, some bs => some (UInt8.ofNat (16 * h + l) :: bs)
    | _, _, _ => none

theorem hexDigitVal_hexDigit {n : Nat} (h : n < 16) :
    hexDigitVal (hexDigit n) = some n := by
  interval_cases n <;> rfl

theorem hexDecode_hexEncode (bs : List UInt8) :
    hexDecode (hexEncode bs) = some bs := by
  induction bs with
  | nil => rfl
  | cons b bs ih =>
    have hb : b.toNat < 256 := b.toNat_lt
    have h1 : b.toNat / 16 < 16 := by omega
    have h2 : b.toNat % 16 < 16 := Nat.mod_lt _ (by omega)
    show hexDecode (hexDigit (b.toNat / 16) :: hexDigit (b.toNat % 16) ::
      hexEncode bs) = some (b :: bs)
    rw [hexDecode, hexDigitVal_hexDigit h1, hexDigitVal_hexDigit h2, ih]
    show some (UInt8.ofNat (16 * (b.toNat / 16) + b.toNat % 16) :: bs) =
      some (b :: bs)
    have : 16 * (b.toNat / 16) + b.toNat % 16 = b.toNat := by omega
    rw [this, ofNat_toNat8]

/-- Modelled from the spec: `AccountAddress` lives in the models crate's
account module, outside the files shown; it is "a fixed-width opaque
byte sequence, the one-way compression of a public key; compared by raw
bytes".  The width used by the source crate is 27 bytes. -/
def FR_ADDRESS_LEN : Nat := 27

/-- `AccountAddress { data }` with its fixed width as an invariant. -/
@[ext]
structure AccountAddress where
  data : List UInt8
  data_len : data.length = FR_ADDRESS_LEN

instance : DecidableEq AccountAddress := fun a b =>
  if h : a.data = b.data then .isTrue (by cases a; cases b; simp_all)
  else .isFalse (fun hh => h (by rw [hh]))

/-- `web3::types::Address`, a 20-byte Ethereum address
(`eth_address.as_bytes()` yields its raw 20 bytes). -/
@[ext]
structure Address where
  data : List UInt8
  data_len : data.length = 20

instance : DecidableEq Address := fun a b =>
  if h : a.data = b.data then .isTrue (by cases a; cases b; simp_all)
  else .isFalse (fun hh => h (by rw [hh]))

/-- `TokenId` is the models crate's `u16`. -/
abbrev TokenId := Fin (2 ^ 16)

/-- `Nonce` is the models crate's `u32`. -/
abbrev Nonce := Fin (2 ^ 32)

/-- `u16::to_be_bytes`: two bytes, big-endian. -/
def TokenId.to_be_bytes (t : TokenId) : List UInt8 := natToBE 2 t.val

/-- `u32::to_be_bytes`: four bytes, big-endian. -/
def Nonce.to_be_bytes (n : Nonce) : List UInt8 := natToBE 4 n.val

/-- `bigdecimal::BigDecimal` values modelled by the rational numbers
they denote (equality on `BigDecimal` is value equality). -/
abbrev BigDecimal := Rat

/-- Modelled from the spec: `BigDecimal::to_u128` (the `bigdecimal`
crate is outside the shown files).  Per the spec, the withdrawal amount
"is converted to an unsigned integer ...; this conversion fails if the
decimal has a fractional part or exceeds the integer width", so it
succeeds exactly on integral values in `[0, 2^128)`. -/
def BigDecimal.to_u128 (a : BigDecimal) : Option Nat :=
  if a.den = 1 ∧ 0 ≤ a.num ∧ a.num < 2 ^ 128 then some a.num.toNat else none

/-- The `Engine` type parameter of `franklin_crypto`: the carrier types
of the external curve primitive (compressed Edwards points and the
Jubjub scalar field `Fs` with its raw limb representation `FsRepr`). -/
structure Engine where
  Point : Type
  FsRepr : Type
  Fs : Type

/-- `franklin_crypto::eddsa::PublicKey<Engine>` wraps one curve point. -/
abbrev PublicKey (En : Engine) := En.Point

/-- `franklin_crypto::eddsa::Signature<Engine>`: the pair
`(curve point R, scalar s)`. -/
structure Signature (En : Engine) where
  r : En.Point
  s : En.Fs

/-- The external collaborators consumed by `tx.rs`, as a bundle of
function parameters: the curve codec, the two MuSig verification
primitives (each already specialised to the fixed
`FixedGenerators::SpendingKeyGenerator` and the process-wide
`JUBJUB_PARAMS`, exactly as every call site in the source passes them),
the address derivation, the amount packers and SHA-256.  The packers
return `none` where the Rust packer fails on out-of-range input
(modelled from the spec: their bodies are outside the shown files). -/
structure Ext (En : Engine) where
  pointWrite : En.Point → List UInt8
  pointRead : List UInt8 → Option En.Point
  scalarWriteLE : En.Fs → List UInt8
  fsReprReadLE : List UInt8 → Option En.FsRepr
  fsFromRepr : En.FsRepr → Option En.Fs
  musigPedersen : PublicKey En → Signature En → List UInt8 → Bool
  musigSha256 : PublicKey En → Signature En → List UInt8 → Bool
  from_pubkey : PublicKey En → AccountAddress
  pack_token_amount : BigDecimal → Option (List UInt8)
  pack_fee_amount : BigDecimal → Option (List UInt8)
  sha256 : List UInt8 → List UInt8

/-- `PackedPublicKey(pub PublicKey<Engine>)`. -/
structure PackedPublicKey (En : Engine) where
  pubKey : PublicKey En

/-- `PackedSignature(pub Signature<Engine>)`. -/
structure PackedSignature (En : Engine) where
  sig : Signature En

/-- `PackedPublicKey::serialize_packed`: the 32-byte compressed point
(the source writes it into a fixed 32-byte buffer; that a point writes
exactly 32 bytes is the external contract of `edwards::Point::write`). -/
def PackedPublicKey.serialize_packed {En : Engine} (E : Ext En)
    (p : PackedPublicKey En) : List UInt8 :=
  E.pointWrite p.pubKey

/-- `Serialize for PackedPublicKey`: hex text of the packed bytes. -/
def PackedPublicKey.serialize {En : Engine} (E : Ext En)
    (p : PackedPublicKey En) : List Char :=
  hexEncode (p.serialize_packed E)

/-- `Deserialize for PackedPublicKey`: hex-decode, require exactly 32
bytes, then restore the curve point; any failure is an error value. -/
def PackedPublicKey.deserialize {En : Engine} (E : Ext En)
    (s : List Char) : Option (PackedPublicKey En) :=
  match hexDecode s with
  | none => none
  | some bytes =>
    if bytes.length ≠ 32 then none
    else
      match E.pointRead bytes with
      | none => none
      | some p => some ⟨p⟩

/-- `PackedSignature::serialize_packed`: 32-byte compressed `R`
followed by the 32-byte little-endian `s` (the source splits a 64-byte
buffer at offset 32 and writes each half). -/
def PackedSignature.serialize_packed {En : Engine} (E : Ext En)
    (p : PackedSignature En) : List UInt8 :=
  E.pointWrite p.sig.r ++ E.scalarWriteLE p.sig.s

/-- `Serialize for PackedSignature`: hex text of the packed bytes. -/
def PackedSignature.serialize {En : Engine} (E : Ext En)
    (p : PackedSignature En) : List Char :=
  hexEncode (p.serialize_packed E)

/-- `Deserialize for PackedSignature`: hex-decode, require exactly 64
bytes, split at 32, restore `R`, read the little-endian scalar limbs,
and reduce them to a field element; any failure is an error value. -/
def PackedSignature.deserialize {En : Engine} (E : Ext En)
    (s : List Char) : Option (PackedSignature En) :=
  match hexDecode s with
  | none => none
  | some bytes =>
    if bytes.length ≠ 64 then none
    else
      let r_bar := bytes.take 32
      let s_bar := bytes.drop 32
      match E.pointRead r_bar with
      | none => none
      | some r =>
        match E.fsReprReadLE s_bar with
        | none => none
        | some s_repr =>
          match E.fsFromRepr s_repr with
          | none => none
          | some s => some ⟨⟨r, s⟩⟩

/-- `TxSignature { pub_key, sign }`. -/
structure TxSignature (En : Engine) where
  pub_key : PackedPublicKey En
  sign : PackedSignature En

/-- `TxSignature::verify_musig_pedersen`: run the external MuSig
Pedersen check on the message; on success return (a clone of) the
embedded public key. -/
def TxSignature.verify_musig_pedersen {En : Engine} (E : Ext En)
    (ts : TxSignature En) (msg : List UInt8) : Option (PublicKey En) :=
  let valid := E.musigPedersen ts.pub_key.pubKey ts.sign.sig msg
  if valid then some ts.pub_key.pubKey else none

/-- `TxSignature::verify_musig_sha256`: same shape with the SHA-256
challenge variant. -/
def TxSignature.verify_musig_sha256 {En : Engine} (E : Ext En)
    (ts : TxSignature En) (msg : List UInt8) : Option (PublicKey En) :=
  let valid := E.musigSha256 ts.pub_key.pubKey ts.sign.sig msg
  if valid then some ts.pub_key.pubKey else none

/-- The `Transfer` transaction. -/
structure Transfer (En : Engine) where
  «from» : AccountAddress
  «to» : AccountAddress
  token : TokenId
  amount : BigDecimal
  fee : BigDecimal
  nonce : Nonce
  signature : TxSignature En

/-- `Transfer::TX_TYPE`. -/
def Transfer.TX_TYPE : UInt8 := 5

/-- `Transfer::get_bytes`: the sequence of `extend_from_slice` calls on
an initially empty vector; a packer failure (a panic in Rust, since the
packers return plain byte vectors) aborts the encoding. -/
def Transfer.get_bytes {En : Engine} (E : Ext En) (tx : Transfer En) :
    Option (List UInt8) := do
  let out : List UInt8 := []
  let out := out ++ [Transfer.TX_TYPE]
  let out := out ++ tx.«from».data
  let out := out ++ tx.«to».data
  let out := out ++ tx.token.to_be_bytes
  let out := out ++ (← E.pack_token_amount tx.amount)
  let out := out ++ (← E.pack_fee_amount tx.fee)
  let out := out ++ tx.nonce.to_be_bytes
  pure out

/-- `Transfer::verify_signature`: MuSig-Pedersen over the canonical
bytes, then the derived address must equal `self.from`.  `none` marks
the case where `get_bytes` itself aborts. -/
def Transfer.verify_signature {En : Engine} (E : Ext En)
    (tx : Transfer En) : Option Bool := do
  let bytes ← tx.get_bytes E
  match TxSignature.verify_musig_pedersen E tx.signature bytes with
  | some pub_key =>
    if E.from_pubkey pub_key = tx.«from» then pure true else pure false
  | none => pure false

/-- The `Withdraw` transaction. -/
structure Withdraw (En : Engine) where
  account : AccountAddress
  eth_address : Address
  token : TokenId
  amount : BigDecimal
  fee : BigDecimal
  nonce : Nonce
  signature : TxSignature En

/-- `Withdraw::TX_TYPE`. -/
def Withdraw.TX_TYPE : UInt8 := 3

/-- `Withdraw::get_bytes`: like `Transfer` but with the raw Ethereum
address and the amount as `self.amount.to_u128().unwrap().to_be_bytes()`
— full-width 16-byte big-endian, the `unwrap` panic modelled as an
aborted encoding. -/
def Withdraw.get_bytes {En : Engine} (E : Ext En) (tx : Withdraw En) :
    Option (List UInt8) := do
  let out : List UInt8 := []
  let out := out ++ [Withdraw.TX_TYPE]
  let out := out ++ tx.account.data
  let out := out ++ tx.eth_address.data
  let out := out ++ tx.token.to_be_bytes
  let amount_u128 ← BigDecimal.to_u128 tx.amount
  let out := out ++ natToBE 16 amount_u128
  let out := out ++ (← E.pack_fee_amount tx.fee)
  let out := out ++ tx.nonce.to_be_bytes
  pure out

/-- `Withdraw::verify_signature`: MuSig-Pedersen over the canonical
bytes, then the derived address must equal `self.account`. -/
def Withdraw.verify_signature {En : Engine} (E : Ext En)
    (tx : Withdraw En) : Option Bool := do
  let bytes ← tx.get_bytes E
  match TxSignature.verify_musig_pedersen E tx.signature bytes with
  | some pub_key =>
    if E.from_pubkey pub_key = tx.account then pure true else pure false
  | none => pure false

/-- The `Close` transaction. -/
structure Close (En : Engine) where
  account : AccountAddress
  nonce : Nonce
  signature : TxSignature En

/-- `Close::TX_TYPE`. -/
def Close.TX_TYPE : UInt8 := 4

/-- `Close::get_bytes`: discriminant, account, nonce; no fallible call,
so the encoding is total. -/
def Close.get_bytes {En : Engine} (tx : Close En) : List UInt8 :=
  [] ++ [Close.TX_TYPE] ++ tx.account.data ++ tx.nonce.to_be_bytes

/-- `Close::verify_signature`: MuSig-Pedersen over the canonical bytes,
then the derived address must equal `self.account`. -/
def Close.verify_signature {En : Engine} (E : Ext En)
    (tx : Close En) : Bool :=
  match TxSignature.verify_musig_pedersen E tx.signature tx.get_bytes with
  | some pub_key =>
    if E.from_pubkey pub_key = tx.account then true else false
  | none => false

/-- The closed sum `FranklinTx`. -/
inductive FranklinTx (En : Engine) where
  | Transfer (tx : Transfer En)
  | Withdraw (tx : Withdraw En)
  | Close (tx : Close En)

/-- `FranklinTx::get_bytes`: dispatch to the variant's encoder. -/
def FranklinTx.get_bytes {En : Engine} (E : Ext En) :
    FranklinTx En → Option (List UInt8)
  | .Transfer tx => tx.get_bytes E
  | .Withdraw tx => tx.get_bytes E
  | .Close tx => some tx.get_bytes

/-- `FranklinTx::hash`: SHA-256 of the canonical bytes, written into a
32-byte output buffer. -/
def FranklinTx.hash {En : Engine} (E : Ext En) (tx : FranklinTx En) :
    Option (List UInt8) := do
  let bytes ← tx.get_bytes E
  pure (E.sha256 bytes)

/-- `FranklinTx::account`: the variant's sole owning address. -/
def FranklinTx.account {En : Engine} : FranklinTx En → AccountAddress
  | .Transfer tx => tx.«from»
  | .Withdraw tx => tx.account
  | .Close tx => tx.account

/-- `FranklinTx::nonce`. -/
def FranklinTx.nonce {En : Engine} : FranklinTx En → Nonce
  | .Transfer tx => tx.nonce
  | .Withdraw tx => tx.nonce
  | .Close tx => tx.nonce

/-- `FranklinTx::check_signature`: dispatch to the variant's
verification. -/
def FranklinTx.check_signature {En : Engine} (E : Ext En) :
    FranklinTx En → Option Bool
  | .Transfer tx => tx.verify_signature E
  | .Withdraw tx => tx.verify_signature E
  | .Close tx => some (tx.verify_signature E)

/-! Concrete instantiation of the external collaborators, used to
evaluate the development on closed inputs. -/

/-- A one-point test engine. -/
def engineTest : Engine where
  Point := Unit
  FsRepr := Unit
  Fs := Unit

/-- A computable test instantiation of the external collaborators. -/
def extTest : Ext engineTest where
  pointWrite := fun _ => List.replicate 32 0
  pointRead := fun bs => if bs.length = 32 then some () else none
  scalarWriteLE := fun _ => List.replicate 32 0
  fsReprReadLE := fun bs => if bs.length = 32 then some () else none
  fsFromRepr := fun r => some r
  musigPedersen := fun _ _ _ => true
  musigSha256 := fun _ _ _ => true
  from_pubkey := fun _ => ⟨List.replicate FR_ADDRESS_LEN 0, by simp [FR_ADDRESS_LEN]⟩
  pack_token_amount := fun a =>
    if a.den = 1 ∧ 0 ≤ a.num ∧ a.num < 2 ^ 24 then some (natToBE 3 a.num.toNat)
    else none
  pack_fee_amount := fun a =>
    if a.den = 1 ∧ 0 ≤ a.num ∧ a.num < 2 ^ 16 then some (natToBE 2 a.num.toNat)
    else none
  sha256 := fun _ => List.replicate 32 0

/-- A concrete account address: 27 zero bytes. -/
def addrTest : AccountAddress :=
  ⟨List.replicate FR_ADDRESS_LEN 0, by simp [FR_ADDRESS_LEN]⟩

/-- A concrete Ethereum address: 20 zero bytes. -/
def ethAddrTest : Address := ⟨List.replicate 20 0, by simp⟩

/-- A concrete transaction signature over the test engine. -/
def txSigTest : TxSignature engineTest := ⟨⟨()⟩, ⟨⟨(), ()⟩⟩⟩

/-- A concrete transfer. -/
def transferTest : Transfer engineTest where
  «from» := addrTest
  «to» := addrTest
  token := 1
  amount := 2
  fee := 1
  nonce := 0
  signature := txSigTest

/-- A concrete withdrawal. -/
def withdrawTest : Withdraw engineTest where
  account := addrTest
  eth_address := ethAddrTest
  token := 1
  amount := 2
  fee := 1
  nonce := 0
  signature := txSigTest

/-- A concrete account closure. -/
def closeTest : Close engineTest where
  account := addrTest
  nonce := 0
  signature := txSigTest

/-- A withdrawal whose amount does not fit `u128`: the conversion of
`2^128` fails, so `get_bytes` aborts instead of truncating. -/
def withdrawOverflowTest : Withdraw engineTest :=
  { withdrawTest with amount := (2 : BigDecimal) ^ 128 }

/-- The decimal one half, given directly in normalised form. -/
def oneHalf : BigDecimal := ⟨1, 2, by decide, Nat.coprime_one_left 2⟩

/-- A withdrawal with a fractional amount. -/
def withdrawFracTest : Withdraw engineTest :=
  { withdrawTest with amount := oneHalf }

/-- A transfer whose amount is outside the test token packer's range. -/
def transferBigAmountTest : Transfer engineTest :=
  { transferTest with amount := (2 : BigDecimal) ^ 24 }

/-- A transfer whose fee is outside the test fee packer's range. -/
def transferBigFeeTest : Transfer engineTest :=
  { transferTest with fee := (2 : BigDecimal) ^ 16 }

/-! Decomposition lemmas for the canonical encoders. -/

theorem transfer_get_bytes_eq {En : Engine} (E : Ext En) (tx : Transfer En) :
    tx.get_bytes E =
      (E.pack_token_amount tx.amount).bind fun pa =>
        (E.pack_fee_amount tx.fee).bind fun pf =>
          some ((((((([] ++ [Transfer.TX_TYPE]) ++ tx.«from».data) ++
            tx.«to».data) ++ tx.token.to_be_bytes) ++ pa) ++ pf) ++
            tx.nonce.to_be_bytes) := rfl

theorem withdraw_get_bytes_eq {En : Engine} (E : Ext En) (tx : Withdraw En) :
    tx.get_bytes E =
      (BigDecimal.to_u128 tx.amount).bind fun n =>
        (E.pack_fee_amount tx.fee).bind fun pf =>
          some (((((((([] ++ [Withdraw.TX_TYPE]) ++ tx.account.data) ++
            tx.eth_address.data) ++ tx.token.to_be_bytes) ++ natToBE 16 n) ++
            pf) ++ tx.nonce.to_be_bytes)) := rfl

theorem transfer_get_bytes_some {En : Engine} {E : Ext En} {tx : Transfer En}
    {bs : List UInt8} (h : tx.get_bytes E = some bs) :
    ∃ pa pf, E.pack_token_amount tx.amount = some pa ∧
      E.pack_fee_amount tx.fee = some pf ∧
      bs = [Transfer.TX_TYPE] ++ tx.«from».data ++ tx.«to».data ++
        natToBE 2 tx.token.val ++ pa ++ pf ++ natToBE 4 tx.nonce.val := by
  rw [transfer_get_bytes_eq] at h
  cases ha : E.pack_token_amount tx.amount with
  | none => rw [ha] at h; exact Option.noConfusion h
  | some pa =>
    cases hf : E.pack_fee_amount tx.fee with
    | none => rw [ha, hf] at h; exact Option.noConfusion h
    | some pf =>
      rw [ha, hf] at h
      refine ⟨pa, pf, rfl, rfl, ?_⟩
      simp only [Option.some_bind, Option.some.injEq] at h
      simp [← h, TokenId.to_be_bytes, Nonce.to_be_bytes]

theorem withdraw_get_bytes_some {En : Engine} {E : Ext En} {tx : Withdraw En}
    {bs : List UInt8} (h : tx.get_bytes E = some bs) :
    ∃ n pf, BigDecimal.to_u128 tx.amount = some n ∧
      E.pack_fee_amount tx.fee = some pf ∧
      bs = [Withdraw.TX_TYPE] ++ tx.account.data ++ tx.eth_address.data ++
        natToBE 2 tx.token.val ++ natToBE 16 n ++ pf ++
        natToBE 4 tx.nonce.val := by
  rw [withdraw_get_bytes_eq] at h
  cases ha : BigDecimal.to_u128 tx.amount with
  | none => rw [ha] at h; exact Option.noConfusion h
  | some n =>
    cases hf : E.pack_fee_amount tx.fee with
    | none => rw [ha, hf] at h; exact Option.noConfusion h
    | some pf =>
      rw [ha, hf] at h
      refine ⟨n, pf, rfl, rfl, ?_⟩
      simp only [Option.some_bind, Option.some.injEq] at h
      simp [← h, TokenId.to_be_bytes, Nonce.to_be_bytes]

theorem close_get_bytes_eq {En : Engine} (tx : Close En) :
    tx.get_bytes = [Close.TX_TYPE] ++ tx.account.data ++
      natToBE 4 tx.nonce.val := by
  simp [Close.get_bytes, Nonce.to_be_bytes]

theorem to_u128_some_iff (a : BigDecimal) (n : Nat) :
    BigDecimal.to_u128 a = some n ↔
      a.den = 1 ∧ 0 ≤ a.num ∧ a.num < 2 ^ 128 ∧ a.num.toNat = n := by
  unfold BigDecimal.to_u128
  split
  next hc =>
    simp only [Option.some.injEq]
    exact ⟨fun h => ⟨hc.1, hc.2.1, hc.2.2, h⟩, fun h => h.2.2.2⟩
  next hc =>
    exact iff_of_false (by simp) fun h => hc ⟨h.1, h.2.1, h.2.2.1⟩

theorem to_u128_lt {a : BigDecimal} {n : Nat}
    (h : BigDecimal.to_u128 a = some n) : n < 2 ^ 128 := by
  rw [to_u128_some_iff] at h
  omega

theorem to_u128_inj {a b : BigDecimal} {n : Nat}
    (ha : BigDecimal.to_u128 a = some n)
    (hb : BigDecimal.to_u128 b = some n) : a = b := by
  rw [to_u128_some_iff] at ha hb
  apply Rat.ext
  · omega
  · rw [ha.1, hb.1]

/-- C2: for every Withdraw, encoding the amount fails hard (no bytes at
all, hence never truncated bytes) whenever the decimal has a fractional
part, is negative, or does not fit `u128`; and for Transfer and
Withdraw a failure of the fee/token packers propagates as a hard
failure of `get_bytes`. -/
theorem C2_hard_encoding_failures {En : Engine} (E : Ext En) :
    (∀ tx : Withdraw En,
      (tx.amount.den ≠ 1 ∨ tx.amount.num < 0 ∨ 2 ^ 128 ≤ tx.amount.num) →
      tx.get_bytes E = none)
    ∧ (∀ tx : Withdraw En, E.pack_fee_amount tx.fee = none →
      tx.get_bytes E = none)
    ∧ (∀ tx : Transfer En, E.pack_token_amount tx.amount = none →
      tx.get_bytes E = none)
    ∧ (∀ tx : Transfer En, E.pack_fee_amount tx.fee = none →
      tx.get_bytes E = none) := by
  refine ⟨fun tx h => ?_, fun tx h => ?_, fun tx h => ?_, fun tx h => ?_⟩
  · have hnone : BigDecimal.to_u128 tx.amount = none := by
      unfold BigDecimal.to_u128
      rw [if_neg (by omega)]
    rw [withdraw_get_bytes_eq, hnone]
    rfl
  · rw [withdraw_get_bytes_eq, h]
    cases BigDecimal.to_u128 tx.amount <;> rfl
  · rw [transfer_get_bytes_eq, h]
    rfl
  · rw [transfer_get_bytes_eq, h]
    cases E.pack_token_amount tx.amount <;> rfl

set_option maxRecDepth 8000 in
/-- Witness for C2 at concrete inputs: a fractional withdrawal amount,
an overflowing withdrawal amount, and out-of-range token/fee packer
inputs each abort the encoding. -/
theorem C2_hard_encoding_failures_witness :
    Withdraw.get_bytes extTest withdrawFracTest = none
    ∧ Withdraw.get_bytes extTest withdrawOverflowTest = none
    ∧ Transfer.get_bytes extTest transferBigAmountTest = none
    ∧ Transfer.get_bytes extTest transferBigFeeTest = none :=
  ⟨(C2_hard_encoding_failures extTest).1 _ (Or.inl (by decide)),
   (C2_hard_encoding_failures extTest).1 _ (Or.inr (Or.inr (by decide))),
   (C2_hard_encoding_failures extTest).2.2.1 _ (by decide),
   (C2_hard_encoding_failures extTest).2.2.2 _ (by decide)⟩

/-- C3: every successful Transfer/Withdraw/Close encoding starts with
the reserved discriminant byte 5/3/4 respectively, and encodings of
different variants never coincide. -/
theorem C3_discriminant_separation {En : Engine} (E : Ext En) :
    (∀ (tx : Transfer En) (bs : List UInt8), tx.get_bytes E = some bs →
      bs.head? = some 5)
    ∧ (∀ (tx : Withdraw En) (bs : List UInt8), tx.get_bytes E = some bs →
      bs.head? = some 3)
    ∧ (∀ tx : Close En, tx.get_bytes.head? = some 4)
    ∧ (∀ (t : Transfer En) (w : Withdraw En) (bs : List UInt8),
      t.get_bytes E = some bs → ¬ w.get_bytes E = some bs)
    ∧ (∀ (t : Transfer En) (c : Close En) (bs : List UInt8),
      t.get_bytes E = some bs → ¬ c.get_bytes = bs)
    ∧ (∀ (w : Withdraw En) (c : Close En) (bs : List UInt8),
      w.get_bytes E = some bs → ¬ c.get_bytes = bs) := by
  refine ⟨fun tx bs h => ?_, fun tx bs h => ?_, fun tx => ?_,
    fun t w bs ht hw => ?_, fun t c bs ht hc => ?_, fun w c bs hw hc => ?_⟩
  · obtain ⟨pa, pf, -, -, hbs⟩ := transfer_get_bytes_some h
    rw [hbs]
    rfl
  · obtain ⟨n, pf, -, -, hbs⟩ := withdraw_get_bytes_some h
    rw [hbs]
    rfl
  · rw [close_get_bytes_eq]
    rfl
  · obtain ⟨pa, pf, -, -, hbs⟩ := transfer_get_bytes_some ht
    obtain ⟨n, pf', -, -, hbs'⟩ := withdraw_get_bytes_some hw
    have := hbs.symm.trans hbs'
    exact absurd (List.head_eq_of_cons_eq this) (by decide)
  · obtain ⟨pa, pf, -, -, hbs⟩ := transfer_get_bytes_some ht
    rw [close_get_bytes_eq] at hc
    have := hc.trans hbs
    exact absurd (List.head_eq_of_cons_eq this) (by decide)
  · obtain ⟨n, pf, -, -, hbs⟩ := withdraw_get_bytes_some hw
    rw [close_get_bytes_eq] at hc
    have := hc.trans hbs
    exact absurd (List.head_eq_of_cons_eq this) (by decide)

set_option maxRecDepth 8000 in
/-- Witness for C3 at concrete transactions of all three variants. -/
theorem C3_discriminant_separation_witness :
    (Option.map List.head? (Transfer.get_bytes extTest transferTest) =
      some (some 5))
    ∧ (Option.map List.head? (Withdraw.get_bytes extTest withdrawTest) =
      some (some 3))
    ∧ (Close.get_bytes closeTest).head? = some 4
    ∧ ¬ Withdraw.get_bytes extTest withdrawTest =
      Transfer.get_bytes extTest transferTest := by
  have h1 : Transfer.get_bytes extTest transferTest =
      some ([Transfer.TX_TYPE] ++ addrTest.data ++ addrTest.data ++
        natToBE 2 1 ++ natToBE 3 2 ++ natToBE 2 1 ++ natToBE 4 0) := by
    decide
  have h2 : Withdraw.get_bytes extTest withdrawTest =
      some ([Withdraw.TX_TYPE] ++ addrTest.data ++ ethAddrTest.data ++
        natToBE 2 1 ++ natToBE 16 2 ++ natToBE 2 1 ++ natToBE 4 0) := by
    decide
  refine ⟨?_, ?_, (C3_discriminant_separation extTest).2.2.1 closeTest, ?_⟩
  · rw [h1]
    exact congrArg some ((C3_discriminant_separation extTest).1 transferTest _ h1)
  · rw [h2]
    exact congrArg some ((C3_discriminant_separation extTest).2.1 withdrawTest _ h2)
  · intro hcontra
    exact (C3_discriminant_separation extTest).2.2.2.1 transferTest
      withdrawTest _ h1 (hcontra.trans h1)

/-- C4: a successful Transfer encoding is exactly the concatenation
`[5] ++ from ++ to ++ token(BE,2) ++ pack_token(amount) ++
pack_fee(fee) ++ nonce(BE,4)` and nothing else. -/
theorem C4_transfer_layout {En : Engine} (E : Ext En) (tx : Transfer En)
    (pa pf : List UInt8)
    (ha : E.pack_token_amount tx.amount = some pa)
    (hf : E.pack_fee_amount tx.fee = some pf) :
    tx.get_bytes E = some ([5] ++ tx.«from».data ++ tx.«to».data ++
      natToBE 2 tx.token.val ++ pa ++ pf ++ natToBE 4 tx.nonce.val) := by
  rw [transfer_get_bytes_eq, ha, hf]
  simp [TokenId.to_be_bytes, Nonce.to_be_bytes, Transfer.TX_TYPE]

set_option maxRecDepth 8000 in
/-- Witness for C4 at a concrete transfer. -/
theorem C4_transfer_layout_witness :
    Transfer.get_bytes extTest transferTest =
      some ([5] ++ transferTest.«from».data ++ transferTest.«to».data ++
        natToBE 2 transferTest.token.val ++ natToBE 3 2 ++ natToBE 2 1 ++
        natToBE 4 transferTest.nonce.val) :=
  C4_transfer_layout extTest transferTest (natToBE 3 2) (natToBE 2 1)
    (by decide) (by decide)

/-- C5: a successful Withdraw encoding is exactly the concatenation
`[3] ++ account ++ eth_address(raw) ++ token(BE,2) ++
amount_as_u128(BE,16) ++ pack_fee(fee) ++ nonce(BE,4)` and nothing
else; the amount is not compacted but written at full 16-byte width. -/
theorem C5_withdraw_layout {En : Engine} (E : Ext En) (tx : Withdraw En)
    (n : Nat) (pf : List UInt8)
    (hn : BigDecimal.to_u128 tx.amount = some n)
    (hf : E.pack_fee_amount tx.fee = some pf) :
    tx.get_bytes E = some ([3] ++ tx.account.data ++ tx.eth_address.data ++
      natToBE 2 tx.token.val ++ natToBE 16 n ++ pf ++
      natToBE 4 tx.nonce.val) := by
  rw [withdraw_get_bytes_eq, hn, hf]
  simp [TokenId.to_be_bytes, Nonce.to_be_bytes, Withdraw.TX_TYPE]

set_option maxRecDepth 8000 in
/-- Witness for C5 at a concrete withdrawal. -/
theorem C5_withdraw_layout_witness :
    Withdraw.get_bytes extTest withdrawTest =
      some ([3] ++ withdrawTest.account.data ++
        withdrawTest.eth_address.data ++
        natToBE 2 withdrawTest.token.val ++ natToBE 16 2 ++ natToBE 2 1 ++
        natToBE 4 withdrawTest.nonce.val) :=
  C5_withdraw_layout extTest withdrawTest 2 (natToBE 2 1)
    (by decide) (by decide)

/-- C7: `FranklinTx::hash` is exactly the SHA-256 digest of the
canonical bytes — the digest's only input is `get_bytes()` — and,
whenever the external digest returns 32 bytes, so does `hash`. -/
theorem C7_hash_is_digest_of_bytes {En : Engine} (E : Ext En)
    (h32 : ∀ bs, (E.sha256 bs).length = 32) :
    ∀ (tx : FranklinTx En) (bs : List UInt8), tx.get_bytes E = some bs →
      tx.hash E = some (E.sha256 bs) ∧
      ∀ d, tx.hash E = some d → d.length = 32 := by
  intro tx bs h
  constructor
  · unfold FranklinTx.hash
    rw [h]
    rfl
  · intro d hd
    unfold FranklinTx.hash at hd
    rw [h] at hd
    have hde : E.sha256 bs = d := by
      injection hd
    rw [← hde]
    exact h32 bs

/-- Witness for C7 at a concrete Close transaction. -/
theorem C7_hash_is_digest_of_bytes_witness :
    FranklinTx.hash extTest (FranklinTx.Close closeTest) =
      some (extTest.sha256 closeTest.get_bytes) ∧
    (extTest.sha256 closeTest.get_bytes).length = 32 := by
  have h := C7_hash_is_digest_of_bytes extTest
    (fun bs => by simp [extTest]) (FranklinTx.Close closeTest)
    closeTest.get_bytes rfl
  exact ⟨h.1, h.2 _ h.1⟩

/-- C1 (amended): for every Transfer, Withdraw and Close whose
canonical encoding succeeds, `verify_signature()` returns true iff the
embedded signature passes the external MuSig-Pedersen check (under the
embedded public key, the fixed spending-key generator and the shared
curve parameters, which are baked into `Ext.musigPedersen`) on the
canonical bytes AND the address derived from the embedded key equals
the declared owner; in every other such case it returns false. -/
theorem C1_verify_signature_ownership_iff {En : Engine} (E : Ext En) :
    (∀ (tx : Transfer En) (bs : List UInt8), tx.get_bytes E = some bs →
      (tx.verify_signature E = some true ↔
        (E.musigPedersen tx.signature.pub_key.pubKey tx.signature.sign.sig
          bs = true ∧
         E.from_pubkey tx.signature.pub_key.pubKey = tx.«from»)) ∧
      (tx.verify_signature E = some false ↔
        ¬(E.musigPedersen tx.signature.pub_key.pubKey tx.signature.sign.sig
          bs = true ∧
          E.from_pubkey tx.signature.pub_key.pubKey = tx.«from»)))
    ∧ (∀ (tx : Withdraw En) (bs : List UInt8), tx.get_bytes E = some bs →
      (tx.verify_signature E = some true ↔
        (E.musigPedersen tx.signature.pub_key.pubKey tx.signature.sign.sig
          bs = true ∧
         E.from_pubkey tx.signature.pub_key.pubKey = tx.account)) ∧
      (tx.verify_signature E = some false ↔
        ¬(E.musigPedersen tx.signature.pub_key.pubKey tx.signature.sign.sig
          bs = true ∧
          E.from_pubkey tx.signature.pub_key.pubKey = tx.account)))
    ∧ (∀ tx : Close En,
      (tx.verify_signature E = true ↔
        (E.musigPedersen tx.signature.pub_key.pubKey tx.signature.sign.sig
          tx.get_bytes = true ∧
         E.from_pubkey tx.signature.pub_key.pubKey = tx.account)) ∧
      (tx.verify_signature E = false ↔
        ¬(E.musigPedersen tx.signature.pub_key.pubKey tx.signature.sign.sig
          tx.get_bytes = true ∧
          E.from_pubkey tx.signature.pub_key.pubKey = tx.account))) := by
  refine ⟨fun tx bs h => ?_, fun tx bs h => ?_, fun tx => ?_⟩
  · unfold Transfer.verify_signature
    rw [h]
    simp only [Option.some_bind, TxSignature.verify_musig_pedersen]
    cases hm : E.musigPedersen tx.signature.pub_key.pubKey
        tx.signature.sign.sig bs with
    | false => simp [hm]
    | true =>
      by_cases ha : E.from_pubkey tx.signature.pub_key.pubKey = tx.«from» <;>
        simp [hm, ha]
  · unfold Withdraw.verify_signature
    rw [h]
    simp only [Option.some_bind, TxSignature.verify_musig_pedersen]
    cases hm : E.musigPedersen tx.signature.pub_key.pubKey
        tx.signature.sign.sig bs with
    | false => simp [hm]
    | true =>
      by_cases ha : E.from_pubkey tx.signature.pub_key.pubKey = tx.account <;>
        simp [hm, ha]
  · unfold Close.verify_signature
    simp only [TxSignature.verify_musig_pedersen]
    cases hm : E.musigPedersen tx.signature.pub_key.pubKey
        tx.signature.sign.sig tx.get_bytes with
    | false => simp [hm]
    | true =>
      by_cases ha : E.from_pubkey tx.signature.pub_key.pubKey = tx.account <;>
        simp [hm, ha]

set_option maxRecDepth 8000 in
/-- Counterexample to C1 as stated: on a Withdraw whose amount does not
fit the fixed integer width the code does not return false — the
`unwrap` in `get_bytes` aborts (`none`), so `verify_signature` neither
returns true nor false. -/
theorem C1_counterexample :
    Withdraw.verify_signature extTest withdrawOverflowTest = none ∧
    ¬ Withdraw.verify_signature extTest withdrawOverflowTest = some false ∧
    ¬ Withdraw.verify_signature extTest withdrawOverflowTest = some true :=
  ⟨by decide, by decide, by decide⟩

set_option maxRecDepth 8000 in
/-- Witness for C1 (amended) at a concrete transfer whose test
signature check and ownership check both pass. -/
theorem C1_verify_signature_ownership_iff_witness :
    Transfer.verify_signature extTest transferTest = some true := by
  have h1 : Transfer.get_bytes extTest transferTest =
      some ([Transfer.TX_TYPE] ++ addrTest.data ++ addrTest.data ++
        natToBE 2 1 ++ natToBE 3 2 ++ natToBE 2 1 ++ natToBE 4 0) := by
    decide
  exact ((C1_verify_signature_ownership_iff extTest).1 transferTest _ h1).1.mpr
    ⟨by decide, by decide⟩

/-- C10: transaction verification always goes through the
MuSig-Pedersen variant: `check_signature` is insensitive to the SHA-256
variant (replacing it changes nothing), it dispatches to each variant's
`verify_signature`, success of a variant's `verify_signature` means the
Pedersen primitive accepted the canonical bytes, and both entry points
return exactly the embedded public key on success. -/
theorem C10_pedersen_only_and_embedded_key {En : Engine} :
    (∀ (E : Ext En) (f : PublicKey En → Signature En → List UInt8 → Bool)
      (tx : FranklinTx En),
      FranklinTx.check_signature { E with musigSha256 := f } tx =
        FranklinTx.check_signature E tx)
    ∧ (∀ (E : Ext En) (t : Transfer En),
      FranklinTx.check_signature E (FranklinTx.Transfer t) =
        t.verify_signature E)
    ∧ (∀ (E : Ext En) (w : Withdraw En),
      FranklinTx.check_signature E (FranklinTx.Withdraw w) =
        w.verify_signature E)
    ∧ (∀ (E : Ext En) (c : Close En),
      FranklinTx.check_signature E (FranklinTx.Close c) =
        some (c.verify_signature E))
    ∧ (∀ (E : Ext En) (ts : TxSignature En) (msg : List UInt8)
      (pk : PublicKey En),
      TxSignature.verify_musig_pedersen E ts msg = some pk →
        pk = ts.pub_key.pubKey)
    ∧ (∀ (E : Ext En) (ts : TxSignature En) (msg : List UInt8)
      (pk : PublicKey En),
      TxSignature.verify_musig_sha256 E ts msg = some pk →
        pk = ts.pub_key.pubKey)
    ∧ (∀ (E : Ext En) (t : Transfer En) (bs : List UInt8),
      t.get_bytes E = some bs → t.verify_signature E = some true →
        E.musigPedersen t.signature.pub_key.pubKey t.signature.sign.sig
          bs = true)
    ∧ (∀ (E : Ext En) (w : Withdraw En) (bs : List UInt8),
      w.get_bytes E = some bs → w.verify_signature E = some true →
        E.musigPedersen w.signature.pub_key.pubKey w.signature.sign.sig
          bs = true)
    ∧ (∀ (E : Ext En) (c : Close En), c.verify_signature E = true →
        E.musigPedersen c.signature.pub_key.pubKey c.signature.sign.sig
          c.get_bytes = true) := by
  refine ⟨fun E f tx => ?_, fun E t => rfl, fun E w => rfl, fun E c => rfl,
    fun E ts msg pk h => ?_, fun E ts msg pk h => ?_,
    fun E t bs h hv => ?_, fun E w bs h hv => ?_, fun E c hv => ?_⟩
  · cases tx <;> rfl
  · unfold TxSignature.verify_musig_pedersen at h
    simp only [] at h
    split at h
    · injection h with h
      exact h.symm
    · exact Option.noConfusion h
  · unfold TxSignature.verify_musig_sha256 at h
    simp only [] at h
    split at h
    · injection h with h
      exact h.symm
    · exact Option.noConfusion h
  · by_cases hm : E.musigPedersen t.signature.pub_key.pubKey
        t.signature.sign.sig bs = true
    · exact hm
    · exfalso
      rw [Bool.not_eq_true] at hm
      unfold Transfer.verify_signature at hv
      rw [h] at hv
      simp [TxSignature.verify_musig_pedersen, hm] at hv
  · by_cases hm : E.musigPedersen w.signature.pub_key.pubKey
        w.signature.sign.sig bs = true
    · exact hm
    · exfalso
      rw [Bool.not_eq_true] at hm
      unfold Withdraw.verify_signature at hv
      rw [h] at hv
      simp [TxSignature.verify_musig_pedersen, hm] at hv
  · by_cases hm : E.musigPedersen c.signature.pub_key.pubKey
        c.signature.sign.sig c.get_bytes = true
    · exact hm
    · exfalso
      rw [Bool.not_eq_true] at hm
      unfold Close.verify_signature at hv
      simp [TxSignature.verify_musig_pedersen, hm] at hv

set_option maxRecDepth 8000 in
/-- Witness for C10 at concrete inputs: swapping out the SHA-256
variant leaves `check_signature` unchanged, and the concrete Close's
accepted verification used the Pedersen primitive. -/
theorem C10_pedersen_only_and_embedded_key_witness :
    FranklinTx.check_signature
      { extTest with musigSha256 := fun _ _ _ => false }
      (FranklinTx.Close closeTest) =
      FranklinTx.check_signature extTest (FranklinTx.Close closeTest)
    ∧ extTest.musigPedersen closeTest.signature.pub_key.pubKey
        closeTest.signature.sign.sig closeTest.get_bytes = true :=
  ⟨(C10_pedersen_only_and_embedded_key).1 extTest _ _,
   (C10_pedersen_only_and_embedded_key).2.2.2.2.2.2.2.2 extTest closeTest
     (by decide)⟩

/-- C8: key decoding succeeds exactly on hex text of 32 bytes that the
curve primitive accepts as a point; signature decoding succeeds exactly
on hex text of 64 bytes whose first half reads as a point `R` and whose
second half reads as a legal little-endian scalar; all other inputs
yield an error value (`none`), never a partially built value. -/
theorem C8_decode_success_characterisation {En : Engine} (E : Ext En) :
    (∀ s : List Char,
      (∃ pk, PackedPublicKey.deserialize E s = some pk) ↔
      (∃ bs p, hexDecode s = some bs ∧ bs.length = 32 ∧
        E.pointRead bs = some p))
    ∧ (∀ s : List Char,
      (∃ sg, PackedSignature.deserialize E s = some sg) ↔
      (∃ bs r sr sc, hexDecode s = some bs ∧ bs.length = 64 ∧
        E.pointRead (bs.take 32) = some r ∧
        E.fsReprReadLE (bs.drop 32) = some sr ∧
        E.fsFromRepr sr = some sc)) := by
  constructor
  · intro s
    unfold PackedPublicKey.deserialize
    cases hx : hexDecode s with
    | none => simp
    | some bytes =>
      by_cases hl : bytes.length = 32
      · cases hp : E.pointRead bytes with
        | none => simp [hl, hp]
        | some p => simp [hl, hp]
      · simp [hl]
  · intro s
    unfold PackedSignature.deserialize
    cases hx : hexDecode s with
    | none => simp
    | some bytes =>
      by_cases hl : bytes.length = 64
      · cases hr : E.pointRead (bytes.take 32) with
        | none => simp [hl, hr]
        | some r =>
          cases hsr : E.fsReprReadLE (bytes.drop 32) with
          | none => simp [hl, hr, hsr]
          | some sr =>
            cases hsc : E.fsFromRepr sr with
            | none => simp [hl, hr, hsr, hsc]
            | some sc => simp [hl, hr, hsr, hsc]
      · simp [hl]

/-- C9: decoding the encoded 32-byte packed key (respectively the
64-byte `R ‖ s` packed signature) is the identity, given the external
curve codec's contracts: points and scalars write exactly 32 bytes and
their reads invert their writes. -/
theorem C9_codec_roundtrip {En : Engine} (E : Ext En) :
    (∀ p : PackedPublicKey En,
      (E.pointWrite p.pubKey).length = 32 →
      E.pointRead (E.pointWrite p.pubKey) = some p.pubKey →
      PackedPublicKey.deserialize E (PackedPublicKey.serialize E p) =
        some p)
    ∧ (∀ sg : PackedSignature En,
      (E.pointWrite sg.sig.r).length = 32 →
      (E.scalarWriteLE sg.sig.s).length = 32 →
      E.pointRead (E.pointWrite sg.sig.r) = some sg.sig.r →
      (∃ sr, E.fsReprReadLE (E.scalarWriteLE sg.sig.s) = some sr ∧
        E.fsFromRepr sr = some sg.sig.s) →
      PackedSignature.deserialize E (PackedSignature.serialize E sg) =
        some sg) := by
  constructor
  · intro p h32 hrt
    cases p with
    | mk pk =>
      unfold PackedPublicKey.deserialize PackedPublicKey.serialize
        PackedPublicKey.serialize_packed
      rw [hexDecode_hexEncode]
      simp [h32, hrt]
  · intro sg h32r h32s hrt hs
    obtain ⟨sr, hsr, hfr⟩ := hs
    cases sg with
    | mk sig =>
      cases sig with
      | mk r s =>
        unfold PackedSignature.deserialize PackedSignature.serialize
          PackedSignature.serialize_packed
        rw [hexDecode_hexEncode]
        have hlen : (E.pointWrite r ++ E.scalarWriteLE s).length = 64 := by
          rw [List.length_append, h32r, h32s]
        have htake : (E.pointWrite r ++ E.scalarWriteLE s).take 32
            = E.pointWrite r := by
          rw [← h32r]
          exact List.take_left _ _
        have hdrop : (E.pointWrite r ++ E.scalarWriteLE s).drop 32
            = E.scalarWriteLE s := by
          rw [← h32r]
          exact List.drop_left _ _
        simp [hlen, htake, hdrop, hrt, hsr, hfr]

/-- Witness for C9: the test codec round-trips a concrete packed key
and packed signature. -/
theorem C9_codec_roundtrip_witness :
    PackedPublicKey.deserialize extTest
      (PackedPublicKey.serialize extTest ⟨()⟩) = some ⟨()⟩
    ∧ PackedSignature.deserialize extTest
      (PackedSignature.serialize extTest ⟨⟨(), ()⟩⟩) = some ⟨⟨(), ()⟩⟩ :=
  ⟨(C9_codec_roundtrip extTest).1 ⟨()⟩ (by rfl) (by rfl),
   (C9_codec_roundtrip extTest).2 ⟨⟨(), ()⟩⟩ (by rfl) (by rfl)
     (by rfl) ⟨(), by rfl, by rfl⟩⟩

theorem accountAddress_eq_of_data {a b : AccountAddress}
    (h : a.data = b.data) : a = b := by
  cases a
  cases b
  simp_all

theorem address_eq_of_data {a b : Address} (h : a.data = b.data) : a = b := by
  cases a
  cases b
  simp_all

theorem seg_cancel {a₁ a₂ b₁ b₂ : List UInt8}
    (h : a₁ ++ b₁ = a₂ ++ b₂) (hl : a₁.length = a₂.length) :
    a₁ = a₂ ∧ b₁ = b₂ :=
  List.append_inj h hl

theorem seg_cancel_right {a₁ a₂ b₁ b₂ : List UInt8}
    (h : a₁ ++ b₁ = a₂ ++ b₂) (hl : b₁.length = b₂.length) :
    a₁ = a₂ ∧ b₁ = b₂ :=
  List.append_inj' h hl

theorem pow256_2 : (2 : Nat) ^ 16 = 256 ^ 2 := by norm_num

theorem pow256_3 : (2 : Nat) ^ 24 = 256 ^ 3 := by norm_num

theorem pow256_4 : (2 : Nat) ^ 32 = 256 ^ 4 := by norm_num

theorem pow256_16 : (2 : Nat) ^ 128 = 256 ^ 16 := by norm_num

/-- C6: each variant's canonical encoding is injective over its
(non-signature) field assignments — on the legal domain where the
external packers write a fixed number of bytes and distinguish the
amounts they accept, equal encodings force equal fields.  (The
signature is not part of the encoding: it signs these bytes.) -/
theorem C6_encoding_injective {En : Engine} (E : Ext En) (wt wf : Nat)
    (hwt : ∀ a bs, E.pack_token_amount a = some bs → bs.length = wt)
    (hwf : ∀ a bs, E.pack_fee_amount a = some bs → bs.length = wf)
    (hit : ∀ a b bs, E.pack_token_amount a = some bs →
      E.pack_token_amount b = some bs → a = b)
    (hif : ∀ a b bs, E.pack_fee_amount a = some bs →
      E.pack_fee_amount b = some bs → a = b) :
    (∀ (t₁ t₂ : Transfer En) (bs : List UInt8),
      t₁.get_bytes E = some bs → t₂.get_bytes E = some bs →
      t₁.«from» = t₂.«from» ∧ t₁.«to» = t₂.«to» ∧ t₁.token = t₂.token ∧
      t₁.amount = t₂.amount ∧ t₁.fee = t₂.fee ∧ t₁.nonce = t₂.nonce)
    ∧ (∀ (w₁ w₂ : Withdraw En) (bs : List UInt8),
      w₁.get_bytes E = some bs → w₂.get_bytes E = some bs →
      w₁.account = w₂.account ∧ w₁.eth_address = w₂.eth_address ∧
      w₁.token = w₂.token ∧ w₁.amount = w₂.amount ∧ w₁.fee = w₂.fee ∧
      w₁.nonce = w₂.nonce)
    ∧ (∀ c₁ c₂ : Close En, c₁.get_bytes = c₂.get_bytes →
      c₁.account = c₂.account ∧ c₁.nonce = c₂.nonce) := by
  refine ⟨fun t₁ t₂ bs h₁ h₂ => ?_, fun w₁ w₂ bs h₁ h₂ => ?_,
    fun c₁ c₂ h => ?_⟩
  · obtain ⟨pa₁, pf₁, ha₁, hf₁, hb₁⟩ := transfer_get_bytes_some h₁
    obtain ⟨pa₂, pf₂, ha₂, hf₂, hb₂⟩ := transfer_get_bytes_some h₂
    have hEq := hb₁.symm.trans hb₂
    obtain ⟨hEq, hnonce⟩ := seg_cancel_right hEq
      (by rw [natToBE_length, natToBE_length])
    obtain ⟨hEq, hpf⟩ := seg_cancel_right hEq
      (by rw [hwf _ _ hf₁, hwf _ _ hf₂])
    obtain ⟨hEq, hpa⟩ := seg_cancel_right hEq
      (by rw [hwt _ _ ha₁, hwt _ _ ha₂])
    obtain ⟨hEq, htok⟩ := seg_cancel_right hEq
      (by rw [natToBE_length, natToBE_length])
    obtain ⟨hEq, hto⟩ := seg_cancel_right hEq
      (by rw [t₁.«to».data_len, t₂.«to».data_len])
    obtain ⟨-, hfrom⟩ := seg_cancel_right hEq
      (by rw [t₁.«from».data_len, t₂.«from».data_len])
    refine ⟨accountAddress_eq_of_data hfrom, accountAddress_eq_of_data hto,
      ?_, ?_, ?_, ?_⟩
    · exact Fin.ext (natToBE_inj 2 (by rw [← pow256_2]; exact t₁.token.isLt)
        (by rw [← pow256_2]; exact t₂.token.isLt) htok)
    · exact hit _ _ _ ha₁ (by rw [ha₂, hpa])
    · exact hif _ _ _ hf₁ (by rw [hf₂, hpf])
    · exact Fin.ext (natToBE_inj 4 (by rw [← pow256_4]; exact t₁.nonce.isLt)
        (by rw [← pow256_4]; exact t₂.nonce.isLt) hnonce)
  · obtain ⟨n₁, pf₁, ha₁, hf₁, hb₁⟩ := withdraw_get_bytes_some h₁
    obtain ⟨n₂, pf₂, ha₂, hf₂, hb₂⟩ := withdraw_get_bytes_some h₂
    have hEq := hb₁.symm.trans hb₂
    obtain ⟨hEq, hnonce⟩ := seg_cancel_right hEq
      (by rw [natToBE_length, natToBE_length])
    obtain ⟨hEq, hpf⟩ := seg_cancel_right hEq
      (by rw [hwf _ _ hf₁, hwf _ _ hf₂])
    obtain ⟨hEq, hamt⟩ := seg_cancel_right hEq
      (by rw [natToBE_length, natToBE_length])
    obtain ⟨hEq, htok⟩ := seg_cancel_right hEq
      (by rw [natToBE_length, natToBE_length])
    obtain ⟨hEq, heth⟩ := seg_cancel_right hEq
      (by rw [w₁.eth_address.data_len, w₂.eth_address.data_len])
    obtain ⟨-, hacc⟩ := seg_cancel_right hEq
      (by rw [w₁.account.data_len, w₂.account.data_len])
    refine ⟨accountAddress_eq_of_data hacc, address_eq_of_data heth,
      ?_, ?_, ?_, ?_⟩
    · exact Fin.ext (natToBE_inj 2 (by rw [← pow256_2]; exact w₁.token.isLt)
        (by rw [← pow256_2]; exact w₂.token.isLt) htok)
    · have hn : n₁ = n₂ := natToBE_inj 16 (by rw [← pow256_16]; exact to_u128_lt ha₁)
        (by rw [← pow256_16]; exact to_u128_lt ha₂) hamt
      exact to_u128_inj ha₁ (hn ▸ ha₂)
    · exact hif _ _ _ hf₁ (by rw [hf₂, hpf])
    · exact Fin.ext (natToBE_inj 4 (by rw [← pow256_4]; exact w₁.nonce.isLt)
        (by rw [← pow256_4]; exact w₂.nonce.isLt) hnonce)
  · rw [close_get_bytes_eq, close_get_bytes_eq] at h
    obtain ⟨hEq, hnonce⟩ := seg_cancel_right h
      (by rw [natToBE_length, natToBE_length])
    obtain ⟨-, hacc⟩ := seg_cancel_right hEq
      (by rw [c₁.account.data_len, c₂.account.data_len])
    exact ⟨accountAddress_eq_of_data hacc,
      Fin.ext (natToBE_inj 4 (by rw [← pow256_4]; exact c₁.nonce.isLt)
        (by rw [← pow256_4]; exact c₂.nonce.isLt) hnonce)⟩

theorem extTest_pack_token_len :
    ∀ a bs, extTest.pack_token_amount a = some bs → bs.length = 3 := by
  intro a bs h
  simp only [extTest] at h
  split at h
  · injection h with h
    rw [← h]
    exact natToBE_length _ _
  · exact Option.noConfusion h

theorem extTest_pack_fee_len :
    ∀ a bs, extTest.pack_fee_amount a = some bs → bs.length = 2 := by
  intro a bs h
  simp only [extTest] at h
  split at h
  · injection h with h
    rw [← h]
    exact natToBE_length _ _
  · exact Option.noConfusion h

theorem extTest_pack_token_inj :
    ∀ a b bs, extTest.pack_token_amount a = some bs →
      extTest.pack_token_amount b = some bs → a = b := by
  intro a b bs h₁ h₂
  simp only [extTest] at h₁ h₂
  split at h₁
  case isTrue hca =>
    split at h₂
    case isTrue hcb =>
      injection h₁ with h₁
      injection h₂ with h₂
      have hn : a.num.toNat = b.num.toNat :=
        natToBE_inj 3 (by rw [← pow256_3]; omega)
          (by rw [← pow256_3]; omega)
          (by rw [h₁, h₂])
      exact Rat.ext (by omega) (hca.1.trans hcb.1.symm)
    case isFalse => exact Option.noConfusion h₂
  case isFalse => exact Option.noConfusion h₁

theorem extTest_pack_fee_inj :
    ∀ a b bs, extTest.pack_fee_amount a = some bs →
      extTest.pack_fee_amount b = some bs → a = b := by
  intro a b bs h₁ h₂
  simp only [extTest] at h₁ h₂
  split at h₁
  case isTrue hca =>
    split at h₂
    case isTrue hcb =>
      injection h₁ with h₁
      injection h₂ with h₂
      have hn : a.num.toNat = b.num.toNat :=
        natToBE_inj 2 (by rw [← pow256_2]; omega)
          (by rw [← pow256_2]; omega)
          (by rw [h₁, h₂])
      exact Rat.ext (by omega) (hca.1.trans hcb.1.symm)
    case isFalse => exact Option.noConfusion h₂
  case isFalse => exact Option.noConfusion h₁

set_option maxRecDepth 8000 in
/-- Witness for C6: the hypotheses on the external packers are
satisfied by the test packers, and the theorem applies at a concrete
transfer's encoding. -/
theorem C6_encoding_injective_witness :
    transferTest.«from» = transferTest.«from» ∧
    transferTest.«to» = transferTest.«to» ∧
    transferTest.token = transferTest.token ∧
    transferTest.amount = transferTest.amount ∧
    transferTest.fee = transferTest.fee ∧
    transferTest.nonce = transferTest.nonce :=
  (C6_encoding_injective extTest 3 2 extTest_pack_token_len
    extTest_pack_fee_len extTest_pack_token_inj extTest_pack_fee_inj).1
    transferTest transferTest
    ([Transfer.TX_TYPE] ++ addrTest.data ++ addrTest.data ++ natToBE 2 1 ++
      natToBE 3 2 ++ natToBE 2 1 ++ natToBE 4 0)
    (by decide) (by decide)

end ZkSyncTx
